import Mathlib

/-!
Shallow embedding of the order-management data layer of
`src/components/OrdersPage.tsx` (component `OrdersPage`, plus the
`App`/`supabaseClient` modules bundled in the same file).

Each definition is translated from the source function it names; the
theorems at the end of the file settle the frozen claims about the
spec.  Order rows are modelled by the projection of the `Orders` table
row (`DBOrder`) onto the fields the claims mention; money fields are
modelled as rationals (the spec fixes full-precision internal ledger
arithmetic), timestamps and user names as opaque strings supplied by
the caller.
-/

namespace FastComand

/-- Enum literal for the order status machine.  The `OrderStatus` enum
lives in `types.ts`, which is not part of the sources; the seven
literal names are modelled from the spec (section 4.1).  At runtime the
status column of the `Orders` table is a plain string (`DBOrder.status
: string`), so statuses are modelled as strings here. -/
def OrderStatus.NEW : String := "NEW"

/-- Enum literal, see `OrderStatus.NEW`. -/
def OrderStatus.ORDERED : String := "ORDERED"

/-- Enum literal, see `OrderStatus.NEW`. -/
def OrderStatus.SHIPPED_FROM_STORE : String := "SHIPPED_FROM_STORE"

/-- Enum literal, see `OrderStatus.NEW`. -/
def OrderStatus.ARRIVED_AT_OFFICE : String := "ARRIVED_AT_OFFICE"

/-- Enum literal, see `OrderStatus.NEW`. -/
def OrderStatus.STORED : String := "STORED"

/-- Enum literal, see `OrderStatus.NEW`. -/
def OrderStatus.OUT_FOR_DELIVERY : String := "OUT_FOR_DELIVERY"

/-- Enum literal, see `OrderStatus.NEW`. -/
def OrderStatus.COMPLETED : String := "COMPLETED"

/-- The seven-value status enum of spec section 4.1. -/
def statusEnum : List String :=
  [OrderStatus.NEW, OrderStatus.ORDERED, OrderStatus.SHIPPED_FROM_STORE,
   OrderStatus.ARRIVED_AT_OFFICE, OrderStatus.STORED,
   OrderStatus.OUT_FOR_DELIVERY, OrderStatus.COMPLETED]

/-- One entry of the append-only `history` JSONB column:
`{ timestamp, activity, user }` as built at every mutation site in
`OrdersPage.tsx`. -/
structure HistoryEntry where
  timestamp : String
  activity : String
  user : String
deriving Repr, DecidableEq

/-- Projection of an `Orders` row (`DBOrder` in `supabaseClient.ts`)
onto the fields the claims are about. -/
structure Order where
  id : String
  localOrderId : String
  clientId : String
  storeId : String
  price : ℚ
  currency : String
  priceInMRU : ℚ
  commission : ℚ
  quantity : ℚ
  amountPaid : ℚ
  transactionFee : ℚ
  shippingCost : ℚ
  localDeliveryCost : ℚ
  status : String
  trackingNumber : String
  weight : ℚ
  storageLocation : String
  expectedArrivalDate : String
  isInvoicePrinted : Bool
  whatsappNotificationSent : Bool
  history : List HistoryEntry
deriving Repr, DecidableEq

/-- Model of `handleSaveOrder` (OrdersPage.tsx lines 149-188): the persisted row
after saving the form data `orderData` over the current row.  The
`dbPayload` copies the form fields and sets
`history: [...(orderData.history || []), {timestamp, activity, user}]`
with activity `Updated Order` for an update and `Created Order` for an
insert. -/
def handleSaveOrderRow (row orderData : Order) (isUpdate : Bool)
    (ts user : String) : Order :=
  { row with
    localOrderId := orderData.localOrderId
    clientId := orderData.clientId
    storeId := orderData.storeId
    price := orderData.price
    currency := orderData.currency
    priceInMRU := orderData.priceInMRU
    commission := orderData.commission
    quantity := orderData.quantity
    amountPaid := orderData.amountPaid
    status := orderData.status
    history := orderData.history ++
      [⟨ts, if isUpdate then "Updated Order" else "Created Order", user⟩] }

/-- The `Partial<Order>` payload handed to `handleUpdateOrderStatus`
by the status modal, projected onto the modelled row fields.  A field
that is absent (or `""`, which is falsy in the `if (payload.x)`
guards) is modelled by `""`; the `!== undefined` guarded numeric
fields are modelled by `Option`. -/
structure StatusPayload where
  status : String := ""
  trackingNumber : String := ""
  weight : Option ℚ := none
  shippingCost : Option ℚ := none
  storageLocation : String := ""
  localDeliveryCost : Option ℚ := none
deriving Repr

/-- Model of `handleUpdateOrderStatus` (OrdersPage.tsx lines 190-225): the
persisted row.  The function builds `dbPayload` from the truthy payload
fields — it performs no validation of `payload.status` whatsoever — and
always appends one history entry
`Status changed to ${payload.status || 'Updated'}` (the history base is
the row found in the local `orders` list, i.e. the current row). -/
def handleUpdateOrderStatusRow (o : Order) (p : StatusPayload)
    (ts user : String) : Order :=
  let o1 := if p.status ≠ "" then { o with status := p.status } else o
  let o2 := if p.trackingNumber ≠ "" then
      { o1 with trackingNumber := p.trackingNumber } else o1
  let o3 := match p.weight with
    | some w => { o2 with weight := w }
    | none => o2
  let o4 := match p.shippingCost with
    | some c => { o3 with shippingCost := c }
    | none => o3
  let o5 := if p.storageLocation ≠ "" then
      { o4 with storageLocation := p.storageLocation } else o4
  let o6 := match p.localDeliveryCost with
    | some c => { o5 with localDeliveryCost := c }
    | none => o5
  { o6 with history := o.history ++
      [⟨ts, "Status changed to " ++
        (if p.status ≠ "" then p.status else "Updated"), user⟩] }

/-- Payment details collected by `PaymentModal` and passed to
`handlePaymentConfirm` (OrdersPage.tsx lines 227-257). -/
structure PaymentDetails where
  amountPaid : ℚ
  paymentMethod : String
  transactionFee : ℚ
  localDeliveryCost : ℚ
deriving Repr, DecidableEq

/-- An immutable `OrderPayments` ledger row as inserted by
`handlePaymentConfirm`. -/
structure PaymentRecord where
  order_id : String
  amount : ℚ
  payment_method : String
  created_by : String
deriving Repr, DecidableEq

/-- The ledger row `handlePaymentConfirm` inserts into `OrderPayments`
for the selected order. -/
def paymentLedgerRecord (o : Order) (d : PaymentDetails) (user : String) :
    PaymentRecord :=
  ⟨o.id, d.amountPaid, d.paymentMethod, user⟩

/-- The `Orders` row update performed by `handlePaymentConfirm` after
the ledger insert succeeded: `amount_paid` is the previous value plus
`details.amountPaid`, `transaction_fee` the previous value plus
`details.transactionFee`, `local_delivery_cost` is set, and one history
entry is appended. -/
def handlePaymentConfirmOrderRow (o : Order) (d : PaymentDetails)
    (ts user : String) : Order :=
  { o with
    amountPaid := o.amountPaid + d.amountPaid
    localDeliveryCost := d.localDeliveryCost
    transactionFee := o.transactionFee + d.transactionFee
    history := o.history ++
      [⟨ts, "Registered payment: " ++ toString d.amountPaid ++ " MRU", user⟩] }

/-- One order's remote state touched by payment registration: its
`Orders` row and its `OrderPayments` ledger rows. -/
structure PayState where
  order : Order
  ledger : List PaymentRecord
deriving Repr, DecidableEq

/-- The combined state effect of one successful `handlePaymentConfirm`
call: ledger insert followed by the order row update. -/
def registerPayment (st : PayState) (d : PaymentDetails) (ts user : String) :
    PayState :=
  { order := handlePaymentConfirmOrderRow st.order d ts user
    ledger := st.ledger ++ [paymentLedgerRecord st.order d user] }

/-- A remote write attempted by `handlePaymentConfirm`, in attempt
order. -/
inductive RemoteWrite where
  | ledgerInsert (r : PaymentRecord)
  | orderUpdate (o : Order)
deriving Repr, DecidableEq

/-- A user-visible toast message (the `showToast` collaborator). -/
inductive Toast where
  | success (msg : String)
  | error (msg : String)
deriving Repr, DecidableEq

/-- Failure injection for the two remote writes of
`handlePaymentConfirm`. -/
structure RemoteBehavior where
  ledgerInsertFails : Bool
  orderUpdateFails : Bool
deriving Repr, DecidableEq

/-- The full observable outcome of one `handlePaymentConfirm` call:
final remote state, the remote writes attempted in order, and the toast
shown. -/
structure PayOutcome where
  state : PayState
  attempts : List RemoteWrite
  toast : Toast
deriving Repr, DecidableEq

/-- Model of `handlePaymentConfirm` (OrdersPage.tsx lines 227-257) with the
outcome of each remote write injected.  The ledger insert is attempted
first; `if (payError) throw payError;` then skips the order update and
the `catch` shows an error toast, leaving the order untouched.  On a
failing order update the ledger row has already been inserted (the
accepted inconsistency window of spec section 5). -/
def handlePaymentConfirm (rb : RemoteBehavior) (st : PayState)
    (d : PaymentDetails) (ts user : String) : PayOutcome :=
  let rec0 := paymentLedgerRecord st.order d user
  if rb.ledgerInsertFails then
    { state := st
      attempts := [.ledgerInsert rec0]
      toast := .error "payment ledger insert failed" }
  else
    let newOrder := handlePaymentConfirmOrderRow st.order d ts user
    if rb.orderUpdateFails then
      { state := { order := st.order, ledger := st.ledger ++ [rec0] }
        attempts := [.ledgerInsert rec0, .orderUpdate newOrder]
        toast := .error "order update failed" }
    else
      { state := { order := newOrder, ledger := st.ledger ++ [rec0] }
        attempts := [.ledgerInsert rec0, .orderUpdate newOrder]
        toast := .success "payment registered" }

/-- Model of `handleNotificationConfirm` (OrdersPage.tsx lines 259-308): the
persisted row update sets `whatsapp_notification_sent: true` and
appends one history entry naming the notification language. -/
def handleNotificationConfirmRow (o : Order) (lang ts user : String) :
    Order :=
  { o with
    whatsappNotificationSent := true
    history := o.history ++ [⟨ts, "WhatsApp Alert sent (" ++ lang ++ ")", user⟩] }

/-- Model of `handleInvoiceSent` (OrdersPage.tsx lines 310-328): the persisted
row update sets only `is_invoice_printed: true`.  No history entry is
written by this operation. -/
def handleInvoiceSentRow (o : Order) : Order :=
  { o with isInvoicePrinted := true }

/-- The in-memory list update of `handleInvoiceSent`:
`prev.map(o => o.id === order.id ? { ...o, isInvoicePrinted: true } : o)`. -/
def invoiceSentListUpdate (targetId : String) (l : List Order) : List Order :=
  l.map fun o => if o.id = targetId then handleInvoiceSentRow o else o

/-- The success path of `handleInvoiceSent` on the two UI lists: the
main `orders` list is always rewritten, the `searchResults` list only
when one is active (non-null). -/
def handleInvoiceSentLists (target : Order) (orders : List Order)
    (searchResults : Option (List Order)) :
    List Order × Option (List Order) :=
  (invoiceSentListUpdate target.id orders,
   searchResults.map (invoiceSentListUpdate target.id))

/-- The single failure kind of a status revert: the order has no prior
state (spec section 4.1 names it `NoPriorState`; in the code this is
the `default:` branch of the `switch`, which returns `false` without
writing). -/
inductive RevertError where
  | noPriorState
deriving Repr, DecidableEq

/-- The fixed predecessor mapping of `handleRevertStatus`
(OrdersPage.tsx lines 336-344): the `switch (order.status)` statement.
`NEW` — and any string outside the enum — hits the `default:` branch
and has no predecessor. -/
def revertTarget (s : String) : Option String :=
  if s = OrderStatus.ORDERED then some OrderStatus.NEW
  else if s = OrderStatus.SHIPPED_FROM_STORE then some OrderStatus.ORDERED
  else if s = OrderStatus.ARRIVED_AT_OFFICE then some OrderStatus.SHIPPED_FROM_STORE
  else if s = OrderStatus.STORED then some OrderStatus.ARRIVED_AT_OFFICE
  else if s = OrderStatus.OUT_FOR_DELIVERY then some OrderStatus.STORED
  else if s = OrderStatus.COMPLETED then some OrderStatus.OUT_FOR_DELIVERY
  else none

/-- Model of `handleRevertStatus` (OrdersPage.tsx lines 330-356).  The optional
`password` argument is accepted by the signature but never read by the
function body: no verification against the identity collaborator
happens.  On success the row gets the predecessor status and one
history entry `Status reverted to <prevStatus>`; on the `default:`
branch the function returns `false` and nothing is written. -/
def handleRevertStatus (o : Order) (password : Option String)
    (ts user : String) : Except RevertError Order :=
  match revertTarget o.status with
  | none => .error .noPriorState
  | some prev =>
      .ok { o with
            status := prev
            history := o.history ++
              [⟨ts, "Status reverted to " ++ prev, user⟩] }

/-- One mutating operation on an order row, as dispatched by
`OrdersPage`. -/
inductive MutOp where
  | save (form : Order) (isUpdate : Bool) (ts user : String)
  | updateStatus (p : StatusPayload) (ts user : String)
  | payment (d : PaymentDetails) (ts user : String)
  | notify (lang ts user : String)
  | revert (password : Option String) (ts user : String)
  | invoiceSent

/-- The effect of one mutating operation on the current order row.  For
`save` the form modal is opened on the current order, so the form data
carries the row's current history; a failed revert leaves the row
unchanged. -/
def applyMutOp (o : Order) : MutOp → Order
  | .save form isUpdate ts user =>
      handleSaveOrderRow o { form with history := o.history } isUpdate ts user
  | .updateStatus p ts user => handleUpdateOrderStatusRow o p ts user
  | .payment d ts user => handlePaymentConfirmOrderRow o d ts user
  | .notify lang ts user => handleNotificationConfirmRow o lang ts user
  | .revert pw ts user =>
      match handleRevertStatus o pw ts user with
      | .ok o2 => o2
      | .error _ => o
  | .invoiceSent => handleInvoiceSentRow o

/-- All row fields other than `isInvoicePrinted` agree. -/
def sameExceptInvoice (a b : Order) : Prop :=
  a.id = b.id ∧ a.localOrderId = b.localOrderId ∧ a.clientId = b.clientId ∧
  a.storeId = b.storeId ∧ a.price = b.price ∧ a.currency = b.currency ∧
  a.priceInMRU = b.priceInMRU ∧ a.commission = b.commission ∧
  a.quantity = b.quantity ∧ a.amountPaid = b.amountPaid ∧
  a.transactionFee = b.transactionFee ∧ a.shippingCost = b.shippingCost ∧
  a.localDeliveryCost = b.localDeliveryCost ∧ a.status = b.status ∧
  a.trackingNumber = b.trackingNumber ∧ a.weight = b.weight ∧
  a.storageLocation = b.storageLocation ∧
  a.expectedArrivalDate = b.expectedArrivalDate ∧
  a.whatsappNotificationSent = b.whatsappNotificationSent ∧
  a.history = b.history

/-! Debounced search (the `useEffect` on `externalSearchTerm`,
OrdersPage.tsx lines 89-104).  Two models over the same code: a
deterministic keystroke/timer fold for the debounce claim, and an
event-step machine (keystroke, timer fire, response arrival) for the
concurrency claim. -/

/-- The truthiness of `externalSearchTerm.trim()` in the effect's
guard: trimming leaves a non-empty string exactly when some character
is not whitespace. -/
def hasNonBlank (s : String) : Bool :=
  s.data.any fun c => !c.isWhitespace

/-- Debounce fold state: the pending (not yet fired) timer with its set
time and captured term, plus the queries issued so far as
`(issue time, term)` pairs. -/
abbrev DebounceState := Option (Nat × String) × List (Nat × String)

/-- A pending timer fires `600` ms after it was set; if its due time
has passed by `now` the query it carries is issued before the next
effect run. -/
def fireDue (now : Nat) : DebounceState → DebounceState
  | (some (t0, s0), out) =>
      if t0 + 600 ≤ now then (none, out ++ [(t0 + 600, s0)])
      else (some (t0, s0), out)
  | (none, out) => (none, out)

/-- One run of the search effect for a keystroke `(t, term)`: any timer
already due has fired; the effect then unconditionally clears the
pending timer (`clearTimeout`) and, when `term.trim()` is non-empty,
sets a fresh 600 ms timer capturing `term`. -/
def keystrokeStep (st : DebounceState) (k : Nat × String) : DebounceState :=
  let st2 := fireDue k.1 st
  if hasNonBlank k.2 then (some (k.1, k.2), st2.2) else (none, st2.2)

/-- The server-side queries issued for a chronological keystroke
sequence, once all remaining time has passed (a timer still pending
after the last keystroke fires 600 ms after it was set). -/
def issuedQueries (ks : List (Nat × String)) : List (Nat × String) :=
  match ks.foldl keystrokeStep (none, []) with
  | (some (t, s), out) => out ++ [(t + 600, s)]
  | (none, out) => out

/-- Keystrokes happen in time order with each one issued strictly
within 600 ms of the previous one. -/
def within600 (a b : Nat × String) : Prop :=
  a.1 < b.1 ∧ b.1 < a.1 + 600

/-- State of the search effect for the event-step model.  Search
results are abstracted to lists of order ids.  `inFlight` holds the
issued, unanswered requests as `(issue index, term)`; issue indices
grow with issue order. -/
structure SearchState where
  pendingTerm : Option String
  nextId : Nat
  inFlight : List (Nat × String)
  searchResults : Option (List Nat)
  isSearching : Bool
deriving Repr, DecidableEq

/-- The initial search state: no timer, no request, paginated mode. -/
def searchInit : SearchState :=
  ⟨none, 0, [], none, false⟩

/-- An event the single-threaded event loop can process: a keystroke, a
debounce timer firing, or the response of an issued request arriving. -/
inductive SearchEvent where
  | keystroke (term : String)
  | timerFire
  | response (id : Nat) (res : List Nat)
deriving Repr, DecidableEq

/-- One event-loop step of the search effect (OrdersPage.tsx lines
89-104).  A keystroke clears the pending timer and either sets a new
one (non-blank term) or leaves search mode (blank term).  A timer fire
issues the request for the captured term.  A response — the
continuation after `await searchOrders(...)` — runs
`setSearchResults(results); setIsSearching(false)` unconditionally:
nothing compares issue ids, so any in-flight response overwrites the
visible results when it arrives.  `none` marks an event that cannot
occur in the state (no timer to fire, no such request in flight). -/
def stepSearch (st : SearchState) : SearchEvent → Option SearchState
  | .keystroke term =>
      if hasNonBlank term then
        some { st with pendingTerm := some term, isSearching := true }
      else
        some { st with
               pendingTerm := none
               searchResults := none
               isSearching := false }
  | .timerFire =>
      match st.pendingTerm with
      | some term =>
          some { st with pendingTerm := none, nextId := st.nextId + 1,
                         inFlight := st.inFlight ++ [(st.nextId, term)] }
      | none => none
  | .response id res =>
      if st.inFlight.any (fun p => p.1 = id) then
        some { st with
               inFlight := st.inFlight.filter (fun p => p.1 ≠ id)
               searchResults := some res
               isSearching := false }
      else none

/-- Run a trace of search events from a state. -/
def runTrace (st : SearchState) : List SearchEvent → Option SearchState
  | [] => some st
  | e :: es =>
      match stepSearch st e with
      | some st2 => runTrace st2 es
      | none => none

/-- The interleaving that decides the concurrency claim: search `"a"`
is issued (request 0), then search `"ab"` is issued (request 1); the
response of request 1 arrives first, the response of the superseded
request 0 arrives last. -/
def staleResponseTrace : List SearchEvent :=
  [.keystroke "a", .timerFire, .keystroke "ab", .timerFire,
   .response 1 [2], .response 0 [1]]

/-! Display list: filtering and sorting (`filteredOrders`,
OrdersPage.tsx lines 106-145).  The comparator places completed orders
last and otherwise compares local order ids with
`localeCompare(..., { numeric: true, sensitivity: 'base' })`, which is
modelled by splitting a string into digit runs (compared as numbers)
and letter runs (compared case-insensitively by base character
code). -/

/-- Three-way comparison of naturals. -/
def natCmp (a b : Nat) : Ordering :=
  if a < b then .lt else if b < a then .gt else .eq

/-- A token of the numeric collation: a digit run with its numeric
value, or a run of non-digit characters (as lower-cased character
codes). -/
inductive NumTok where
  | num (n : Nat)
  | txt (cs : List Nat)
deriving Repr, DecidableEq

/-- Tokenizer worker: folds the characters into alternating digit-run
and text-run tokens, carrying the token under construction. -/
def tokenizeAux : List Char → Option NumTok → List NumTok
  | [], none => []
  | [], some t => [t]
  | c :: rest, acc =>
      if c.isDigit then
        match acc with
        | some (.num n) => tokenizeAux rest (some (.num (n * 10 + (c.toNat - 48))))
        | some t => t :: tokenizeAux rest (some (.num (c.toNat - 48)))
        | none => tokenizeAux rest (some (.num (c.toNat - 48)))
      else
        match acc with
        | some (.txt cs) => tokenizeAux rest (some (.txt (cs ++ [c.toLower.toNat])))
        | some t => t :: tokenizeAux rest (some (.txt [c.toLower.toNat]))
        | none => tokenizeAux rest (some (.txt [c.toLower.toNat]))

/-- Split a string into numeric-collation tokens. -/
def tokenize (s : String) : List NumTok :=
  tokenizeAux s.data none

/-- Lexicographic comparison of token lists by an element
comparison. -/
def lexCmp (c : α → α → Ordering) : List α → List α → Ordering
  | [], [] => .eq
  | [], _ :: _ => .lt
  | _ :: _, [] => .gt
  | a :: as, b :: bs =>
      match c a b with
      | .eq => lexCmp c as bs
      | o => o

/-- Comparison of single collation tokens: numbers numerically, text
runs lexicographically; a number sorts before text (numeric
collation). -/
def tokCmp : NumTok → NumTok → Ordering
  | .num a, .num b => natCmp a b
  | .num _, .txt _ => .lt
  | .txt _, .num _ => .gt
  | .txt a, .txt b => lexCmp natCmp a b

/-- The model of
`x.localeCompare(y, undefined, { numeric: true, sensitivity: 'base' })`
as an `Ordering`. -/
def numericCompare (x y : String) : Ordering :=
  lexCmp tokCmp (tokenize x) (tokenize y)

/-- The sort callback of `filteredOrders` (OrdersPage.tsx lines
132-144) as an `Ordering`: completed orders after active ones
(`return 1` / `return -1`), otherwise
`b.localOrderId.localeCompare(a.localOrderId, ...)` — note the swapped
arguments giving descending numeric order. -/
def orderCmp (a b : Order) : Ordering :=
  let aC := a.status = OrderStatus.COMPLETED
  let bC := b.status = OrderStatus.COMPLETED
  if aC ∧ ¬ bC then .gt
  else if ¬ aC ∧ bC then .lt
  else numericCompare b.localOrderId a.localOrderId

/-- The non-positive half of the comparator, used as the sort
relation. -/
def orderLe (a b : Order) : Bool :=
  match orderCmp a b with
  | .gt => false
  | _ => true

/-- The final sorting stage of `filteredOrders`:
`[...result].sort(cmp)`.  JavaScript `Array.prototype.sort` with a
consistent comparator produces a stable permutation ordered by the
comparator; it is modelled by a stable merge sort on `orderLe`. -/
def sortOrders (l : List Order) : List Order :=
  l.mergeSort orderLe

/-- The smart-filter stage of `filteredOrders` (the `switch` on
`externalSmartFilter`, OrdersPage.tsx lines 109-125), applied only when
no search term is set and the filter is not `all`.  `today` is the
current date string the `late` case computes. -/
def smartFilterStep (smartFilter today : String) (l : List Order) :
    List Order :=
  if smartFilter = "ready_pickup" then
    l.filter fun o => o.status = OrderStatus.STORED ∨
      o.status = OrderStatus.ARRIVED_AT_OFFICE
  else if smartFilter = "late" then
    l.filter fun o => (o.status = OrderStatus.ORDERED ∨
      o.status = OrderStatus.SHIPPED_FROM_STORE) ∧
      o.expectedArrivalDate ≠ "" ∧ o.expectedArrivalDate < today
  else if smartFilter = "needs_tracking" then
    l.filter fun o => o.status = OrderStatus.ORDERED ∧ o.trackingNumber = ""
  else if smartFilter = "pending_invoice" then
    l.filter fun o => o.status = OrderStatus.ORDERED ∧ o.isInvoicePrinted = false
  else
    l.filter fun o => o.status = smartFilter

/-- Model of `filteredOrders` (OrdersPage.tsx lines 106-145): search results
replace the paginated list when active; the smart filter applies only
without a search term; the store filter applies next; the result is
sorted by `orderCmp`. -/
def filteredOrders (orders : List Order) (searchResults : Option (List Order))
    (searchTerm smartFilter storeFilter today : String) : List Order :=
  let result := match searchResults with
    | some rs => rs
    | none => orders
  let result :=
    if searchTerm = "" ∧ smartFilter ≠ "all" then
      smartFilterStep smartFilter today result
    else result
  let result :=
    if storeFilter ≠ "all" then result.filter (fun o => o.storeId = storeFilter)
    else result
  sortOrders result

/-- A concrete order used by witnesses and counterexamples. -/
def order0 : Order :=
  { id := "11111111-1111-1111-1111-111111111111"
    localOrderId := "FCD-100"
    clientId := "c1"
    storeId := "s1"
    price := 1000
    currency := "USD"
    priceInMRU := 1000
    commission := 50
    quantity := 1
    amountPaid := 0
    transactionFee := 0
    shippingCost := 0
    localDeliveryCost := 0
    status := OrderStatus.NEW
    trackingNumber := ""
    storageLocation := ""
    expectedArrivalDate := ""
    weight := 0
    isInvoicePrinted := false
    whatsappNotificationSent := false
    history := [] }

/-- A sequence of `handlePaymentConfirm` calls (details, timestamp,
acting user), each applied to the state left by the previous one. -/
def payFold (st : PayState) (calls : List (PaymentDetails × String × String)) :
    PayState :=
  calls.foldl (fun st c => registerPayment st c.1 c.2.1 c.2.2) st

/-- A model identity collaborator that fails every credential
verification. -/
def rejectAllCredentials : String → Bool := fun _ => false

/-- The frame condition of the invoice-printed list update for one
position: every field other than `isInvoicePrinted` is unchanged, and
`isInvoicePrinted` becomes `true` exactly when the row is the targeted
one. -/
def invoiceFrame (old new : Order) (targetId : String) : Prop :=
  sameExceptInvoice new old ∧
  new.isInvoicePrinted = (if old.id = targetId then true else old.isInvoicePrinted)

/-! Comparator lemmas: the sort relation `orderLe` is total and
transitive, so the sorted output of `sortOrders` is pairwise ordered by
it. -/

theorem natCmp_eq_lt {a b : Nat} : natCmp a b = .lt ↔ a < b := by
  unfold natCmp
  split <;> rename_i h1
  · simp [h1]
  · split <;> simp <;> omega

theorem natCmp_eq_gt {a b : Nat} : natCmp a b = .gt ↔ b < a := by
  unfold natCmp
  split <;> rename_i h1
  · simp; omega
  · split <;> simp <;> omega

theorem natCmp_eq_eq {a b : Nat} : natCmp a b = .eq ↔ a = b := by
  unfold natCmp
  split <;> rename_i h1
  · simp; omega
  · split <;> simp <;> omega

theorem natCmp_swap (a b : Nat) : natCmp b a = (natCmp a b).swap := by
  unfold natCmp
  rcases Nat.lt_trichotomy a b with h | h | h
  · simp [h, Nat.lt_asymm h, Ordering.swap]
  · subst h
    simp [Nat.lt_irrefl, Ordering.swap]
  · simp [h, Nat.lt_asymm h, Ordering.swap]

theorem natCmp_lt_trans {a b c : Nat} (h1 : natCmp a b = .lt)
    (h2 : natCmp b c = .lt) : natCmp a c = .lt := by
  rw [natCmp_eq_lt] at h1 h2 ⊢
  omega

theorem lexCmp_eq_eq {c : α → α → Ordering}
    (helem : ∀ x y, c x y = .eq ↔ x = y) :
    ∀ xs ys : List α, lexCmp c xs ys = .eq ↔ xs = ys := by
  intro xs
  induction xs with
  | nil => intro ys; cases ys <;> simp [lexCmp]
  | cons a as ih =>
      intro ys
      cases ys with
      | nil => simp [lexCmp]
      | cons b bs =>
          show (match c a b with
            | .eq => lexCmp c as bs
            | o => o) = .eq ↔ _
          rcases hc : c a b <;> simp only []
          · simp only [List.cons.injEq]
            constructor
            · intro hx; cases hx
            · rintro ⟨rfl, rfl⟩
              rw [(helem a a).mpr rfl] at hc
              cases hc
          · rw [ih bs]
            have hab : a = b := (helem a b).mp hc
            subst hab
            simp
          · simp only [List.cons.injEq]
            constructor
            · intro hx; cases hx
            · rintro ⟨rfl, rfl⟩
              rw [(helem a a).mpr rfl] at hc
              cases hc

theorem lexCmp_swap {c : α → α → Ordering}
    (hsw : ∀ x y, c y x = (c x y).swap) :
    ∀ xs ys : List α, lexCmp c ys xs = (lexCmp c xs ys).swap := by
  intro xs
  induction xs with
  | nil => intro ys; cases ys <;> simp [lexCmp, Ordering.swap]
  | cons a as ih =>
      intro ys
      cases ys with
      | nil => simp [lexCmp, Ordering.swap]
      | cons b bs =>
          show (match c b a with
            | .eq => lexCmp c bs as
            | o => o) =
            (match c a b with
            | .eq => lexCmp c as bs
            | o => o).swap
          rw [hsw a b]
          rcases hc : c a b
          · rfl
          · exact ih bs
          · rfl

theorem lexCmp_lt_trans {c : α → α → Ordering}
    (helem : ∀ x y, c x y = .eq ↔ x = y)
    (hlt : ∀ {x y z}, c x y = .lt → c y z = .lt → c x z = .lt) :
    ∀ {xs ys zs : List α}, lexCmp c xs ys = .lt → lexCmp c ys zs = .lt →
      lexCmp c xs zs = .lt := by
  intro xs
  induction xs with
  | nil =>
      intro ys zs h1 h2
      cases ys with
      | nil => exact h2
      | cons b bs =>
          cases zs with
          | nil => cases h2
          | cons z zs2 => simp [lexCmp]
  | cons a as ih =>
      intro ys zs h1 h2
      cases ys with
      | nil => cases h1
      | cons b bs =>
          cases zs with
          | nil => cases h2
          | cons z zs2 =>
              have e1 : lexCmp c (a :: as) (b :: bs) =
                  (match c a b with
                  | .eq => lexCmp c as bs
                  | o => o) := rfl
              have e2 : lexCmp c (b :: bs) (z :: zs2) =
                  (match c b z with
                  | .eq => lexCmp c bs zs2
                  | o => o) := rfl
              have e3 : lexCmp c (a :: as) (z :: zs2) =
                  (match c a z with
                  | .eq => lexCmp c as zs2
                  | o => o) := rfl
              rw [e1] at h1
              rw [e2] at h2
              rw [e3]
              rcases hab : c a b <;> rw [hab] at h1
              · rcases hbz : c b z <;> rw [hbz] at h2
                · rw [hlt hab hbz]
                · have hbzeq : b = z := (helem b z).mp hbz
                  subst hbzeq
                  rw [hab]
                · cases h2
              · have habeq : a = b := (helem a b).mp hab
                subst habeq
                rcases hbz : c a z
                · rfl
                · rw [hbz] at h2
                  exact ih h1 h2
                · rw [hbz] at h2
                  cases h2
              · cases h1

theorem tokCmp_eq_eq : ∀ x y : NumTok, tokCmp x y = .eq ↔ x = y := by
  intro x y
  cases x <;> cases y <;> simp [tokCmp]
  · exact natCmp_eq_eq
  · exact lexCmp_eq_eq (fun x y => natCmp_eq_eq) _ _

theorem tokCmp_swap : ∀ x y : NumTok, tokCmp y x = (tokCmp x y).swap := by
  intro x y
  cases x <;> cases y <;> simp [tokCmp, Ordering.swap]
  · exact natCmp_swap _ _
  · exact lexCmp_swap natCmp_swap _ _

theorem tokCmp_lt_trans : ∀ {x y z : NumTok}, tokCmp x y = .lt →
    tokCmp y z = .lt → tokCmp x z = .lt := by
  intro x y z h1 h2
  cases x <;> cases y <;> cases z <;> simp_all [tokCmp]
  · exact natCmp_lt_trans h1 h2
  · exact lexCmp_lt_trans (fun x y => natCmp_eq_eq)
      (fun hxy hyz => natCmp_lt_trans hxy hyz) h1 h2

theorem numericCompare_swap (x y : String) :
    numericCompare y x = (numericCompare x y).swap :=
  lexCmp_swap tokCmp_swap _ _

theorem numericCompare_notGT_trans {x y z : String}
    (h1 : numericCompare x y ≠ .gt) (h2 : numericCompare y z ≠ .gt) :
    numericCompare x z ≠ .gt := by
  unfold numericCompare at h1 h2 ⊢
  rcases hxy : lexCmp tokCmp (tokenize x) (tokenize y) with _ | _ | _
  · rcases hyz : lexCmp tokCmp (tokenize y) (tokenize z) with _ | _ | _
    · rw [lexCmp_lt_trans tokCmp_eq_eq (fun p q => tokCmp_lt_trans p q) hxy hyz]
      simp
    · have heq := (lexCmp_eq_eq tokCmp_eq_eq _ _).mp hyz
      rw [← heq, hxy]
      simp
    · exact absurd hyz h2
  · have heq := (lexCmp_eq_eq tokCmp_eq_eq _ _).mp hxy
    rw [heq]
    exact h2
  · exact absurd hxy h1

theorem orderLe_eq_true {a b : Order} :
    orderLe a b = true ↔ orderCmp a b ≠ .gt := by
  unfold orderLe
  rcases h : orderCmp a b <;> simp [h]

theorem orderCmp_complete_left {a b : Order}
    (hA : a.status = OrderStatus.COMPLETED)
    (hB : ¬ b.status = OrderStatus.COMPLETED) : orderCmp a b = .gt := by
  simp [orderCmp, hA, hB]

theorem orderCmp_complete_right {a b : Order}
    (hA : ¬ a.status = OrderStatus.COMPLETED)
    (hB : b.status = OrderStatus.COMPLETED) : orderCmp a b = .lt := by
  simp [orderCmp, hA, hB]

theorem orderCmp_same_group {a b : Order}
    (h : (a.status = OrderStatus.COMPLETED) ↔
      (b.status = OrderStatus.COMPLETED)) :
    orderCmp a b = numericCompare b.localOrderId a.localOrderId := by
  by_cases hA : a.status = OrderStatus.COMPLETED
  · have hB := h.mp hA
    simp only [orderCmp]
    rw [if_neg (by simp [hB]), if_neg (by simp [hA])]
  · have hB : ¬ b.status = OrderStatus.COMPLETED := fun hb => hA (h.mpr hb)
    simp only [orderCmp]
    rw [if_neg (by simp [hA]), if_neg (by simp [hB])]

theorem orderLe_total (a b : Order) : (orderLe a b || orderLe b a) = true := by
  rw [Bool.or_eq_true, orderLe_eq_true, orderLe_eq_true]
  by_cases hA : a.status = OrderStatus.COMPLETED <;>
    by_cases hB : b.status = OrderStatus.COMPLETED
  · rw [orderCmp_same_group (by simp [hA, hB]),
      orderCmp_same_group (by simp [hA, hB])]
    rcases h : numericCompare b.localOrderId a.localOrderId
    · left; simp [h]
    · left; simp [h]
    · right
      rw [numericCompare_swap, h]
      simp [Ordering.swap]
  · right
    rw [orderCmp_complete_right hB hA]
    simp
  · left
    rw [orderCmp_complete_right hA hB]
    simp
  · rw [orderCmp_same_group (by simp [hA, hB]),
      orderCmp_same_group (by simp [hA, hB])]
    rcases h : numericCompare b.localOrderId a.localOrderId
    · left; simp [h]
    · left; simp [h]
    · right
      rw [numericCompare_swap, h]
      simp [Ordering.swap]

theorem orderLe_trans (a b c : Order) (h1 : orderLe a b = true)
    (h2 : orderLe b c = true) : orderLe a c = true := by
  rw [orderLe_eq_true] at h1 h2 ⊢
  by_cases hA : a.status = OrderStatus.COMPLETED <;>
    by_cases hB : b.status = OrderStatus.COMPLETED <;>
    by_cases hC : c.status = OrderStatus.COMPLETED
  · rw [orderCmp_same_group (by simp [hA, hC])]
    rw [orderCmp_same_group (by simp [hA, hB])] at h1
    rw [orderCmp_same_group (by simp [hB, hC])] at h2
    exact numericCompare_notGT_trans h2 h1
  · exact absurd (orderCmp_complete_left hB hC) h2
  · exact absurd (orderCmp_complete_left hA hB) h1
  · exact absurd (orderCmp_complete_left hA hB) h1
  · rw [orderCmp_complete_right hA hC]
    simp
  · exact absurd (orderCmp_complete_left hB hC) h2
  · rw [orderCmp_complete_right hA hC]
    simp
  · rw [orderCmp_same_group (by simp [hA, hC])]
    rw [orderCmp_same_group (by simp [hA, hB])] at h1
    rw [orderCmp_same_group (by simp [hB, hC])] at h2
    exact numericCompare_notGT_trans h2 h1

theorem sortOrders_pairwise (l : List Order) :
    (sortOrders l).Pairwise (fun a b => orderLe a b = true) :=
  List.sorted_mergeSort orderLe_trans orderLe_total l

/-! Helper lemmas for the debounce fold, the history monotonicity fold,
the payment fold and the invoice list update. -/

theorem foldKeystrokes_chain (rest : List (Nat × String)) :
    ∀ (t0 : Nat) (s0 : String) (out : List (Nat × String)),
    List.Chain' within600 ((t0, s0) :: rest) →
    (∀ k ∈ rest, hasNonBlank k.2 = true) →
    rest.foldl keystrokeStep (some (t0, s0), out) =
      (some (rest.getLastD (t0, s0)), out) := by
  induction rest with
  | nil => intro t0 s0 out hch hne; rfl
  | cons k1 rest ih =>
      intro t0 s0 out hch hne
      obtain ⟨t1, s1⟩ := k1
      have hrel : within600 (t0, s0) (t1, s1) := (List.chain'_cons.mp hch).1
      have hch2 : List.Chain' within600 ((t1, s1) :: rest) :=
        (List.chain'_cons.mp hch).2
      have hs1 : hasNonBlank s1 = true := hne (t1, s1) (by simp)
      have hnotdue : ¬ (t0 + 600 ≤ t1) := by
        have h2 := hrel.2
        omega
      have hstep : keystrokeStep (some (t0, s0), out) (t1, s1) =
          (some (t1, s1), out) := by
        simp [keystrokeStep, fireDue, hs1, hnotdue]
      rw [List.foldl_cons, hstep,
        ih t1 s1 out hch2 (fun k hk => hne k (by simp [hk])),
        List.getLastD_cons]

theorem applyMutOp_history_mono (o : Order) (op : MutOp) :
    o.history.length ≤ (applyMutOp o op).history.length := by
  cases op with
  | save form isUpdate ts user => simp [applyMutOp, handleSaveOrderRow]
  | updateStatus p ts user => simp [applyMutOp, handleUpdateOrderStatusRow]
  | payment d ts user => simp [applyMutOp, handlePaymentConfirmOrderRow]
  | notify lang ts user => simp [applyMutOp, handleNotificationConfirmRow]
  | revert pw ts user =>
      simp only [applyMutOp, handleRevertStatus]
      rcases h : revertTarget o.status <;> simp
  | invoiceSent => simp [applyMutOp, handleInvoiceSentRow]

theorem foldMutOps_history_mono (ops : List MutOp) :
    ∀ o : Order, o.history.length ≤ (ops.foldl applyMutOp o).history.length := by
  induction ops with
  | nil => intro o; simp
  | cons op ops ih =>
      intro o
      calc o.history.length ≤ (applyMutOp o op).history.length :=
            applyMutOp_history_mono o op
        _ ≤ (ops.foldl applyMutOp (applyMutOp o op)).history.length :=
            ih (applyMutOp o op)
        _ = ((op :: ops).foldl applyMutOp o).history.length := by
            rw [List.foldl_cons]

theorem payFold_amountPaid (calls : List (PaymentDetails × String × String)) :
    ∀ st : PayState,
    (payFold st calls).order.amountPaid +
        (st.ledger.map PaymentRecord.amount).sum =
      st.order.amountPaid +
        ((payFold st calls).ledger.map PaymentRecord.amount).sum := by
  induction calls with
  | nil => intro st; rw [payFold]; simp
  | cons c cs ih =>
      intro st
      have hstep : payFold st (c :: cs) =
          payFold (registerPayment st c.1 c.2.1 c.2.2) cs := by
        rw [payFold, payFold, List.foldl_cons]
      rw [hstep]
      have hih := ih (registerPayment st c.1 c.2.1 c.2.2)
      have e1 : (registerPayment st c.1 c.2.1 c.2.2).order.amountPaid =
          st.order.amountPaid + c.1.amountPaid := rfl
      have e2 : ((registerPayment st c.1 c.2.1 c.2.2).ledger.map
            PaymentRecord.amount).sum =
          (st.ledger.map PaymentRecord.amount).sum + c.1.amountPaid := by
        have e3 : (registerPayment st c.1 c.2.1 c.2.2).ledger =
            st.ledger ++ [paymentLedgerRecord st.order c.1 c.2.2] := rfl
        rw [e3]
        simp [paymentLedgerRecord]
      rw [e1, e2] at hih
      linarith [hih]

theorem payFold_order_id (calls : List (PaymentDetails × String × String)) :
    ∀ st : PayState, (payFold st calls).order.id = st.order.id := by
  induction calls with
  | nil => intro st; rfl
  | cons c cs ih =>
      intro st
      have hstep : payFold st (c :: cs) =
          payFold (registerPayment st c.1 c.2.1 c.2.2) cs := by
        rw [payFold, payFold, List.foldl_cons]
      rw [hstep, ih]
      rfl

theorem payFold_ledger_ids (calls : List (PaymentDetails × String × String)) :
    ∀ st : PayState, (∀ r ∈ st.ledger, r.order_id = st.order.id) →
      ∀ r ∈ (payFold st calls).ledger, r.order_id = st.order.id := by
  induction calls with
  | nil =>
      intro st hst r hr
      rw [payFold] at hr
      exact hst r hr
  | cons c cs ih =>
      intro st hst r hr
      have hstep : payFold st (c :: cs) =
          payFold (registerPayment st c.1 c.2.1 c.2.2) cs := by
        rw [payFold, payFold, List.foldl_cons]
      rw [hstep] at hr
      have hbase : ∀ r2 ∈ (registerPayment st c.1 c.2.1 c.2.2).ledger,
          r2.order_id = (registerPayment st c.1 c.2.1 c.2.2).order.id := by
        intro r2 hr2
        simp only [registerPayment, List.mem_append, List.mem_singleton] at hr2
        rcases hr2 with hr2 | hr2
        · exact hst r2 hr2
        · subst hr2; rfl
      exact ih (registerPayment st c.1 c.2.1 c.2.2) hbase r hr

theorem invoiceSentListUpdate_get (l : List Order) (tid : String) :
    ∀ (i : Nat) (h : i < l.length) (h2 : i < (invoiceSentListUpdate tid l).length),
      (invoiceSentListUpdate tid l).get ⟨i, h2⟩ =
        (if (l.get ⟨i, h⟩).id = tid then handleInvoiceSentRow (l.get ⟨i, h⟩)
         else l.get ⟨i, h⟩) := by
  induction l with
  | nil => intro i h h2; cases h
  | cons a as ih =>
      intro i h h2
      cases i with
      | zero => rfl
      | succ n =>
          have hn : n < as.length := by
            simpa using h
          have hn2 : n < (invoiceSentListUpdate tid as).length := by
            simpa [invoiceSentListUpdate] using hn
          exact ih n hn hn2

theorem invoiceFrame_row (o : Order) (tid : String) :
    invoiceFrame o (if o.id = tid then handleInvoiceSentRow o else o) tid := by
  by_cases h : o.id = tid <;>
    simp [h, invoiceFrame, sameExceptInvoice, handleInvoiceSentRow]

/-! Claim theorems. -/

/-- C1, counterexample: the claim says every mutating operation —
including the invoice-printed update — appends exactly one history
entry, but `handleInvoiceSent` writes only `is_invoice_printed` and
appends no history entry, so its persisted history length is not the
previous length plus one. -/
theorem c1_counterexample :
    (handleInvoiceSentRow order0).history.length ≠
      order0.history.length + 1 := by
  simp [handleInvoiceSentRow, order0]

/-- C1, amended: history never shrinks across any sequence of mutating
operations, and create/update, status change, payment registration,
notification send and successful status revert each append exactly one
history entry; the invoice-printed update appends none (it leaves the
history unchanged). -/
theorem c1_amended :
    (∀ (row orderData : Order) (isUpdate : Bool) (ts user : String),
      (handleSaveOrderRow row orderData isUpdate ts user).history.length =
        orderData.history.length + 1) ∧
    (∀ (o : Order) (p : StatusPayload) (ts user : String),
      (handleUpdateOrderStatusRow o p ts user).history.length =
        o.history.length + 1) ∧
    (∀ (st : PayState) (d : PaymentDetails) (ts user : String),
      (registerPayment st d ts user).order.history.length =
        st.order.history.length + 1) ∧
    (∀ (o : Order) (lang ts user : String),
      (handleNotificationConfirmRow o lang ts user).history.length =
        o.history.length + 1) ∧
    (∀ (o : Order) (pw : Option String) (ts user : String),
      (applyMutOp o (.revert pw ts user)).history.length =
        o.history.length +
          (if (revertTarget o.status).isSome then 1 else 0)) ∧
    (∀ o : Order, (handleInvoiceSentRow o).history = o.history) ∧
    (∀ (ops : List MutOp) (o : Order),
      o.history.length ≤ (ops.foldl applyMutOp o).history.length) := by
  refine ⟨?_, ?_, ?_, ?_, ?_, ?_, ?_⟩
  · intro row orderData isUpdate ts user
    simp [handleSaveOrderRow]
  · intro o p ts user
    simp [handleUpdateOrderStatusRow]
  · intro st d ts user
    simp [registerPayment, handlePaymentConfirmOrderRow]
  · intro o lang ts user
    simp [handleNotificationConfirmRow]
  · intro o pw ts user
    simp only [applyMutOp, handleRevertStatus]
    rcases h : revertTarget o.status <;> simp
  · intro o
    rfl
  · intro ops o
    exact foldMutOps_history_mono ops o

/-- C2: for each non-NEW status the revert computes the unique
predecessor of the fixed mapping and appends one history entry
`Status reverted to <prevStatus>`; for a NEW order it fails (the
`default:` branch, the spec's `NoPriorState`) and nothing is written,
so the order is unchanged. -/
theorem c2_revert_mapping (o : Order) (pw : Option String) (ts user : String) :
    handleRevertStatus { o with status := OrderStatus.NEW } pw ts user =
      .error .noPriorState ∧
    handleRevertStatus { o with status := OrderStatus.ORDERED } pw ts user =
      .ok { o with
            status := OrderStatus.NEW
            history := o.history ++
              [⟨ts, "Status reverted to " ++ OrderStatus.NEW, user⟩] } ∧
    handleRevertStatus { o with status := OrderStatus.SHIPPED_FROM_STORE }
        pw ts user =
      .ok { o with
            status := OrderStatus.ORDERED
            history := o.history ++
              [⟨ts, "Status reverted to " ++ OrderStatus.ORDERED, user⟩] } ∧
    handleRevertStatus { o with status := OrderStatus.ARRIVED_AT_OFFICE }
        pw ts user =
      .ok { o with
            status := OrderStatus.SHIPPED_FROM_STORE
            history := o.history ++
              [⟨ts, "Status reverted to " ++ OrderStatus.SHIPPED_FROM_STORE,
                user⟩] } ∧
    handleRevertStatus { o with status := OrderStatus.STORED } pw ts user =
      .ok { o with
            status := OrderStatus.ARRIVED_AT_OFFICE
            history := o.history ++
              [⟨ts, "Status reverted to " ++ OrderStatus.ARRIVED_AT_OFFICE,
                user⟩] } ∧
    handleRevertStatus { o with status := OrderStatus.OUT_FOR_DELIVERY }
        pw ts user =
      .ok { o with
            status := OrderStatus.STORED
            history := o.history ++
              [⟨ts, "Status reverted to " ++ OrderStatus.STORED, user⟩] } ∧
    handleRevertStatus { o with status := OrderStatus.COMPLETED } pw ts user =
      .ok { o with
            status := OrderStatus.OUT_FOR_DELIVERY
            history := o.history ++
              [⟨ts, "Status reverted to " ++ OrderStatus.OUT_FOR_DELIVERY,
                user⟩] } := by
  refine ⟨rfl, rfl, rfl, rfl, rfl, rfl, rfl⟩

/-- C3: one `registerPayment` call first appends the immutable ledger
record, then increases `amount_paid` by exactly `amount` and
`transaction_fee` by exactly `fee`, sets the local delivery cost and
appends one history entry; and over any sequence of calls starting from
`amount_paid = 0`, the final `amount_paid` equals the sum of all ledger
amounts registered for that order (all ledger rows carry the order's
id). -/
theorem c3_registerPayment (o : Order)
    (calls : List (PaymentDetails × String × String))
    (h0 : o.amountPaid = 0) :
    (∀ (st : PayState) (d : PaymentDetails) (ts user : String),
      (registerPayment st d ts user).ledger =
        st.ledger ++ [paymentLedgerRecord st.order d user] ∧
      (registerPayment st d ts user).order.amountPaid =
        st.order.amountPaid + d.amountPaid ∧
      (registerPayment st d ts user).order.transactionFee =
        st.order.transactionFee + d.transactionFee ∧
      (registerPayment st d ts user).order.localDeliveryCost =
        d.localDeliveryCost ∧
      (registerPayment st d ts user).order.history =
        st.order.history ++
          [⟨ts, "Registered payment: " ++ toString d.amountPaid ++ " MRU",
            user⟩]) ∧
    (payFold ⟨o, []⟩ calls).order.amountPaid =
      ((payFold ⟨o, []⟩ calls).ledger.map PaymentRecord.amount).sum ∧
    (∀ r ∈ (payFold ⟨o, []⟩ calls).ledger, r.order_id = o.id) := by
  refine ⟨fun st d ts user => ⟨rfl, rfl, rfl, rfl, rfl⟩, ?_, ?_⟩
  · have h := payFold_amountPaid calls ⟨o, []⟩
    simp only [List.map_nil, List.sum_nil, add_zero] at h
    rw [h, h0, zero_add]
  · intro r hr
    exact payFold_ledger_ids calls ⟨o, []⟩ (by simp) r hr

/-- C3 witness: a single payment of 300 on a fresh order with
`amount_paid = 0` leaves the order's `amount_paid` equal to the sum of
the ledger amounts. -/
theorem c3_registerPayment_witness :
    (payFold ⟨order0, []⟩ [(⟨300, "cash", 0, 0⟩, "t1", "u1")]).order.amountPaid =
      ((payFold ⟨order0, []⟩
        [(⟨300, "cash", 0, 0⟩, "t1", "u1")]).ledger.map
          PaymentRecord.amount).sum :=
  (c3_registerPayment order0 [(⟨300, "cash", 0, 0⟩, "t1", "u1")] rfl).2.1

/-- C4, counterexample: `"BOGUS"` is outside the seven-value status
enum, yet the status-change operation persists it unchanged as the
order's new status instead of failing with `InvalidTransition`. -/
theorem c4_counterexample :
    statusEnum.contains "BOGUS" = false ∧
    (handleUpdateOrderStatusRow order0 { status := "BOGUS" } "t" "u").status =
      "BOGUS" := by
  refine ⟨by decide, rfl⟩

/-- C4, amended: the status-change operation performs no validation of
the target status: it always persists the update, taking any non-empty
target status — enum member or not — as the new status, and appends one
history entry naming it. -/
theorem c4_amended (o : Order) (p : StatusPayload) (ts user : String) :
    (handleUpdateOrderStatusRow o p ts user).status =
      (if p.status = "" then o.status else p.status) ∧
    (handleUpdateOrderStatusRow o p ts user).history =
      o.history ++
        [⟨ts, "Status changed to " ++
          (if p.status ≠ "" then p.status else "Updated"), user⟩] := by
  obtain ⟨ps, pt, pw, pc, pl, pd⟩ := p
  cases pw <;> cases pc <;> cases pd <;>
    by_cases h1 : ps = "" <;> by_cases h2 : pt = "" <;> by_cases h3 : pl = "" <;>
    simp [handleUpdateOrderStatusRow, h1, h2, h3]

/-- C5, counterexample: search `"a"` is issued as request 0, then
search `"ab"` as request 1; request 1's response arrives first and
shows `[2]`, then the superseded request 0's response arrives and is
not discarded: the final visible results are `[1]`, the result set of
the search issued earlier — last completion wins, not last issue. -/
theorem c5_counterexample :
    runTrace searchInit (staleResponseTrace.take 5) =
      some { pendingTerm := none, nextId := 2, inFlight := [(0, "a")],
             searchResults := some [2], isSearching := false } ∧
    runTrace searchInit staleResponseTrace =
      some { pendingTerm := none, nextId := 2, inFlight := [],
             searchResults := some [1], isSearching := false } := by
  refine ⟨rfl, rfl⟩

/-- C5, amended: a keystroke cancels only the not-yet-fired debounce
timer, never an in-flight request; once a request has been issued, its
response overwrites the visible results whenever it arrives, regardless
of issue order (last-write-wins by completion order). -/
theorem c5_amended (st : SearchState) (id : Nat) (res : List Nat)
    (st2 : SearchState) (term : String)
    (h : stepSearch st (.response id res) = some st2) :
    st2.searchResults = some res ∧
    (stepSearch st (.keystroke term)).map SearchState.inFlight =
      some st.inFlight := by
  constructor
  · unfold stepSearch at h
    by_cases hin : st.inFlight.any (fun p => p.1 = id) <;> simp [hin] at h
    rw [← h]
  · unfold stepSearch
    by_cases ht : hasNonBlank term = true <;> simp [ht]

/-- C5 amended witness: with request 0 for `"a"` in flight, its
response `[1]` becomes the visible results, and a keystroke leaves the
in-flight list untouched. -/
theorem c5_amended_witness :
    (some [1] : Option (List Nat)) = some [1] ∧
    (stepSearch ⟨none, 1, [(0, "a")], none, true⟩
        (.keystroke "ab")).map SearchState.inFlight = some [(0, "a")] := by
  have h := c5_amended ⟨none, 1, [(0, "a")], none, true⟩ 0 [1]
    ⟨none, 1, [], some [1], false⟩ "ab" rfl
  exact ⟨by rw [← h.1], h.2⟩

/-- C6: when every search term is issued strictly within 600 ms of the
previous one and no term is blank, exactly one server-side query is
issued — for the final term, 600 ms after the final keystroke. -/
theorem c6_debounce (k0 : Nat × String) (rest : List (Nat × String))
    (hchain : List.Chain' within600 (k0 :: rest))
    (hne : ∀ k ∈ k0 :: rest, hasNonBlank k.2 = true) :
    issuedQueries (k0 :: rest) =
      [((rest.getLastD k0).1 + 600, (rest.getLastD k0).2)] := by
  have hstep0 : keystrokeStep (none, []) k0 = (some (k0.1, k0.2), []) := by
    simp [keystrokeStep, fireDue, hne k0 (by simp)]
  have hch : List.Chain' within600 ((k0.1, k0.2) :: rest) := hchain
  have hfold := foldKeystrokes_chain rest k0.1 k0.2 []
    hch (fun k hk => hne k (by simp [hk]))
  rw [issuedQueries, List.foldl_cons, hstep0, hfold]
  rfl

/-- C6 witness: keystrokes `"a"`, `"ab"`, `"abc"` at t = 0, 300, 500 ms
issue exactly one query, for `"abc"`, at t = 1100 ms. -/
theorem c6_debounce_witness :
    issuedQueries [(0, "a"), (300, "ab"), (500, "abc")] = [(1100, "abc")] :=
  c6_debounce (0, "a") [(300, "ab"), (500, "abc")]
    (by simp [List.chain'_cons, within600]) (by decide)

/-- C7: in the displayed order list every COMPLETED order is placed
after every non-COMPLETED order, and any two orders of the same group
appear in descending numeric order of their local order id. -/
theorem c7_display_ordering (orders : List Order)
    (searchResults : Option (List Order))
    (searchTerm smartFilter storeFilter today : String) :
    (filteredOrders orders searchResults searchTerm smartFilter storeFilter
        today).Pairwise
      (fun a b =>
        (a.status = OrderStatus.COMPLETED → b.status = OrderStatus.COMPLETED) ∧
        (((a.status = OrderStatus.COMPLETED) ↔
            (b.status = OrderStatus.COMPLETED)) →
          numericCompare b.localOrderId a.localOrderId ≠ .gt)) := by
  unfold filteredOrders
  refine List.Pairwise.imp ?_ (sortOrders_pairwise _)
  intro a b hab
  rw [orderLe_eq_true] at hab
  constructor
  · intro hA
    by_contra hB
    exact hab (orderCmp_complete_left hA hB)
  · intro hiff
    rw [orderCmp_same_group hiff] at hab
    exact hab

/-- C8: a payment is committed as two sequential remote writes, the
ledger insert first and the order update second; when the ledger insert
fails the order update is never attempted, the whole payment state
(order fields and ledger) is unchanged, and an error message is
shown. -/
theorem c8_payment_write_order (b : Bool) (st : PayState)
    (d : PaymentDetails) (ts user : String) :
    (handlePaymentConfirm ⟨true, b⟩ st d ts user).attempts =
      [.ledgerInsert (paymentLedgerRecord st.order d user)] ∧
    (handlePaymentConfirm ⟨true, b⟩ st d ts user).state = st ∧
    (handlePaymentConfirm ⟨true, b⟩ st d ts user).toast =
      .error "payment ledger insert failed" ∧
    (handlePaymentConfirm ⟨false, false⟩ st d ts user).attempts =
      [.ledgerInsert (paymentLedgerRecord st.order d user),
       .orderUpdate (handlePaymentConfirmOrderRow st.order d ts user)] := by
  refine ⟨rfl, rfl, rfl, rfl⟩

/-- C9, counterexample: with an identity collaborator that fails every
credential, a revert of a COMPLETED order supplied with the failing
credential `"wrong-password"` is still applied — the credential is
never verified. -/
theorem c9_counterexample :
    rejectAllCredentials "wrong-password" = false ∧
    handleRevertStatus { order0 with status := OrderStatus.COMPLETED }
        (some "wrong-password") "t" "u" =
      .ok { order0 with
            status := OrderStatus.OUT_FOR_DELIVERY
            history :=
              [⟨"t", "Status reverted to " ++ OrderStatus.OUT_FOR_DELIVERY,
                "u"⟩] } := by
  refine ⟨rfl, rfl⟩

/-- C9, amended: the revert operation accepts an optional credential
but never consults the identity collaborator: its result is independent
of the supplied credential, and a revert (e.g. out of COMPLETED) is
applied whatever credential is supplied. -/
theorem c9_amended (o : Order) (pw pw2 : Option String) (ts user : String) :
    handleRevertStatus o pw ts user = handleRevertStatus o pw2 ts user ∧
    handleRevertStatus { o with status := OrderStatus.COMPLETED } pw ts user =
      .ok { o with
            status := OrderStatus.OUT_FOR_DELIVERY
            history := o.history ++
              [⟨ts, "Status reverted to " ++ OrderStatus.OUT_FOR_DELIVERY,
                user⟩] } :=
  ⟨rfl, rfl⟩

/-- C10: on success the invoice-sent operation rewrites the main orders
list and, when active, the search-results list: at every position the
row keeps every field except `isInvoicePrinted`, which becomes true
exactly for rows with the targeted order's id; an inactive search list
stays inactive. -/
theorem c10_invoice_frame (ordersL : List Order)
    (searchRes : Option (List Order)) (target : Order) :
    (handleInvoiceSentLists target ordersL searchRes).1.length =
      ordersL.length ∧
    (∀ (i : Nat) (hi : i < ordersL.length)
        (hi2 : i < (handleInvoiceSentLists target ordersL searchRes).1.length),
      invoiceFrame (ordersL.get ⟨i, hi⟩)
        ((handleInvoiceSentLists target ordersL searchRes).1.get ⟨i, hi2⟩)
        target.id) ∧
    (∀ sl : List Order, searchRes = some sl →
      ∃ nl : List Order,
        (handleInvoiceSentLists target ordersL searchRes).2 = some nl ∧
        nl.length = sl.length ∧
        ∀ (j : Nat) (hj : j < sl.length) (hj2 : j < nl.length),
          invoiceFrame (sl.get ⟨j, hj⟩) (nl.get ⟨j, hj2⟩) target.id) ∧
    (searchRes = none →
      (handleInvoiceSentLists target ordersL searchRes).2 = none) := by
  refine ⟨?_, ?_, ?_, ?_⟩
  · simp [handleInvoiceSentLists, invoiceSentListUpdate]
  · intro i hi hi2
    show invoiceFrame (ordersL.get ⟨i, hi⟩)
      ((invoiceSentListUpdate target.id ordersL).get ⟨i, hi2⟩) target.id
    rw [invoiceSentListUpdate_get ordersL target.id i hi hi2]
    exact invoiceFrame_row (ordersL.get ⟨i, hi⟩) target.id
  · intro sl hsl
    subst hsl
    refine ⟨invoiceSentListUpdate target.id sl, rfl, ?_, ?_⟩
    · simp [invoiceSentListUpdate]
    · intro j hj hj2
      rw [invoiceSentListUpdate_get sl target.id j hj hj2]
      exact invoiceFrame_row (sl.get ⟨j, hj⟩) target.id
  · intro hnone
    subst hnone
    rfl

/-- C10 witness: with `order0` both as the single list element and the
target (search list active with the same row), the rewritten row keeps
all other fields and gets `isInvoicePrinted = true`. -/
theorem c10_invoice_frame_witness :
    invoiceFrame order0
      ((handleInvoiceSentLists order0 [order0] (some [order0])).1.get
        ⟨0, by simp [handleInvoiceSentLists, invoiceSentListUpdate]⟩)
      order0.id :=
  (c10_invoice_frame [order0] (some [order0]) order0).2.1 0 (by simp)
    (by simp [handleInvoiceSentLists, invoiceSentListUpdate])

end FastComand
